import Mathlib

set_option maxRecDepth 100000

/-!
Shallow embedding of `czsc/sensors/utils.py` (walk-forward signal harness and
drawdown analyzer), together with proofs of the specified properties.

Modelling conventions:
* `RawBar` keeps exactly the fields this module reads (`symbol`, `freq`,
  `dt`, `id`).  Timestamps (`dt`) are integers counted in minutes, so the
  debounce interval `timedelta(days=5)` is the constant `fiveDays = 7200`.
* The external collaborators (`BarGenerator`, `CzscAdvancedTrader`) are
  black boxes: their states are type parameters and their operations
  (`update`, the signal mapping `s`, `end_dt`, `Signal.is_match`) are
  function parameters.
* Filesystem side effects (`take_snapshot`, `os.makedirs`, `print`) are
  modelled as a trace of `SnapExport` records returned by the run; raised
  Python exceptions become `Except` errors; `warnings.warn` becomes a
  boolean flag in the result.
* Numeric code (`max_draw_down`) is modelled over `ℚ`.  `np.argmax` returns
  the first index attaining the maximum and raises on the empty array
  (modelled as `none`); Python `int()` truncates toward zero (`pytrunc`).
-/

/-- Bar record: the fields of `RawBar` that `czsc/sensors/utils.py` reads. -/
structure RawBar where
  symbol : String
  freq : String
  dt : Int
  id : Nat
  deriving DecidableEq, Repr

instance : Inhabited RawBar := ⟨⟨"", "", 0, 0⟩⟩

/-- `timedelta(days=5)` with timestamps counted in minutes. -/
def fiveDays : Int := 5 * 1440

/-- The warm-up / evaluation partition performed at the top of
`generate_signals`: `bars_left = [x for x in bars if x.dt < sdt]`; if it has
500 or fewer elements the split is positional (`bars[:500]` / `bars[500:]`),
otherwise `bars_right = [x for x in bars if x.dt >= sdt]`. -/
def generate_split (bars : List RawBar) (sdt : Int) : List RawBar × List RawBar :=
  let bars_left := bars.filter fun x => decide (x.dt < sdt)
  if bars_left.length ≤ 500 then (bars.take 500, bars.drop 500)
  else (bars_left, bars.filter fun x => decide (sdt ≤ x.dt))

/-- `generate_signals`: prime the bar generator on the warm-up window, then
for each evaluation bar update the trader and record a copy of its signal
mapping.  The black-box collaborators are the parameters: `bg0`/`bgUpdate`
for `BarGenerator(...)`/`bg.update`, `mkCT` for `CzscAdvancedTrader(bg,
get_signals)`, `ctUpdate` for `ct.update`, `ctS` for `dict(ct.s)`.  The
boolean in the result records whether `warnings.warn` fired (empty
evaluation window).  `genStep` is the body of the `for bar in bars_right`
loop: `ct.update(bar); signals.append(dict(ct.s))`. -/
def genStep {σ S : Type} (ctUpdate : σ → RawBar → σ) (ctS : σ → S)
    (st : σ × List S) (bar : RawBar) : σ × List S :=
  let ct := ctUpdate st.1 bar
  (ct, st.2 ++ [ctS ct])

def generate_signals {β σ S : Type} (bg0 : β) (bgUpdate : β → RawBar → β)
    (mkCT : β → σ) (ctUpdate : σ → RawBar → σ) (ctS : σ → S)
    (bars : List RawBar) (sdt : Int) : Bool × List S :=
  let p := generate_split bars sdt
  if p.2.length = 0 then (true, [])
  else
    let bg := p.1.foldl bgUpdate bg0
    (false, (p.2.foldl (genStep ctUpdate ctS) (mkCT bg, [])).2)

/-- A signal to validate: the harness only reads its `key` (the matching
predicate `is_match` is a black-box parameter of the run). -/
structure Signal where
  key : String
  deriving DecidableEq, Repr

/-- One snapshot export performed by `check_signals_acc`: the data encoded in
the `take_snapshot` filename `{symbol}_{key}_{value}_{dt}`. -/
structure SnapExport where
  symbol : String
  key : String
  value : String
  dt : Int
  deriving DecidableEq, Repr

/-- Python exceptions that `check_signals_acc` can raise before its loop:
`IndexError` from `bars[-1]` / `bars[2]`, `AssertionError` from the
ordering assert. -/
inductive CheckErr where
  | indexError
  | assertionError
  deriving DecidableEq, Repr

/-- Pointwise update of the `last_dt` dictionary (`last_dt[key] = v`). -/
def updFn (f : String → Int) (k : String) (v : Int) : String → Int :=
  fun x => if x = k then v else f x

/-- The body of the inner `for signal in signals` loop of
`check_signals_acc`: export a snapshot and refresh `last_dt[signal.key]`
when the debounce gap is exceeded and the signal matches the current
state mapping `s`. -/
def procSignal {τ : Type} (isMatch : Signal → τ → Bool) (sVal : τ → String → String)
    (s : τ) (barSymbol : String) (barDt : Int)
    (st : (String → Int) × List SnapExport) (sig : Signal) :
    (String → Int) × List SnapExport :=
  if fiveDays < barDt - st.1 sig.key ∧ isMatch sig s = true then
    (updFn st.1 sig.key barDt, st.2 ++ [⟨barSymbol, sig.key, sVal s sig.key, barDt⟩])
  else st

/-- The body of the outer `for bar in bars_right` loop of
`check_signals_acc`: update the trader, then run the inner signal loop. -/
def procBar {σ τ : Type} (ctUpdate : σ → RawBar → σ) (ctS : σ → τ)
    (isMatch : Signal → τ → Bool) (sVal : τ → String → String)
    (signals : List Signal)
    (st : σ × (String → Int) × List SnapExport) (bar : RawBar) :
    σ × (String → Int) × List SnapExport :=
  let ct := ctUpdate st.1 bar
  (ct, signals.foldl (procSignal isMatch sVal (ctS ct) bar.symbol bar.dt) st.2)

/-- `check_signals_acc`: validate signals over `bars`, exporting debounced
snapshots.  Reading `bars[-1].freq` on an empty list or `bars[2]` on a
short list raises `IndexError`; the ordering assert on `bars[0..2]` raises
`AssertionError`; fewer than 600 bars is an early return with no exports;
otherwise the first 500 bars prime the generator and the rest are
evaluated, producing the export trace. -/
def check_signals_acc {β σ τ : Type} (bg0 : β) (bgUpdate : β → RawBar → β)
    (mkCT : β → σ) (ctUpdate : σ → RawBar → σ) (ctS : σ → τ) (ctEndDt : σ → Int)
    (isMatch : Signal → τ → Bool) (sVal : τ → String → String)
    (bars : List RawBar) (signals : List Signal) :
    Except CheckErr (List SnapExport) :=
  match bars with
  | [] => .error .indexError
  | [_] => .error .indexError
  | [_, _] => .error .indexError
  | b0 :: b1 :: b2 :: _ =>
    if ¬ (b2.dt > b1.dt ∧ b1.dt > b0.dt ∧ b2.id > b1.id) then .error .assertionError
    else if bars.length < 600 then .ok []
    else
      let bars_left := bars.take 500
      let bars_right := bars.drop 500
      let bg := bars_left.foldl bgUpdate bg0
      let ct := mkCT bg
      let last0 : String → Int := fun _ => ctEndDt ct
      .ok (bars_right.foldl (procBar ctUpdate ctS isMatch sVal signals)
            (ct, last0, [])).2.2

/-- The checked precondition of `check_signals_acc`, as a predicate on the
whole list: `bars[2].dt > bars[1].dt > bars[0].dt and bars[2].id >
bars[1].id`. -/
def pre3 (bars : List RawBar) : Prop :=
  (bars.getD 2 default).dt > (bars.getD 1 default).dt ∧
  (bars.getD 1 default).dt > (bars.getD 0 default).dt ∧
  (bars.getD 2 default).id > (bars.getD 1 default).id

instance (bars : List RawBar) : Decidable (pre3 bars) := by
  unfold pre3; infer_instance

/- ## Drawdown analyzer -/

/-- `np.cumsum` with a running accumulator. -/
def cumsumFrom (acc : ℚ) : List ℚ → List ℚ
  | [] => []
  | x :: xs => (acc + x) :: cumsumFrom (acc + x) xs

/-- `np.cumsum`. -/
def cumsum (l : List ℚ) : List ℚ := cumsumFrom 0 l

/-- `curve = np.cumsum(n1b); curve += 10000`. -/
def equity_curve (n1b : List ℚ) : List ℚ := (cumsum n1b).map (fun x => x + 10000)

/-- `np.maximum.accumulate` after the first element. -/
def runMaxAux (m : ℚ) : List ℚ → List ℚ
  | [] => []
  | x :: xs => max m x :: runMaxAux (max m x) xs

/-- `np.maximum.accumulate`. -/
def runningMax : List ℚ → List ℚ
  | [] => []
  | x :: xs => x :: runMaxAux x xs

/-- Helper for `np_argmax`: scan the tail keeping the first index `bi`
attaining the best value `bv` seen so far (`i` is the absolute index of the
head of the remaining list). -/
def argmaxAux : List ℚ → Nat → Nat → ℚ → Nat × ℚ
  | [], _, bi, bv => (bi, bv)
  | x :: xs, i, bi, bv =>
    if bv < x then argmaxAux xs (i + 1) i x else argmaxAux xs (i + 1) bi bv

/-- `np.argmax`: first index of the maximum; raises (`none`) on an empty
array. -/
def np_argmax : List ℚ → Option Nat
  | [] => none
  | x :: xs => some (argmaxAux xs 1 0 x).1

/-- Python `int()`: truncation toward zero. -/
def pytrunc (q : ℚ) : ℤ := if 0 ≤ q then ⌊q⌋ else ⌈q⌉

/-- `max_draw_down`: build the offset cumulative curve, locate the end index
`i` as the argmax of the fractional decline from the running maximum, return
the `(0, 0, 0)` sentinel when `i = 0`, otherwise the peak index `j` within
`curve[:i]` and the truncated drawdown fraction.  `none` models the
`ValueError` numpy raises on an empty input. -/
def max_draw_down (n1b : List ℚ) : Option (Nat × Nat × ℚ) :=
  let curve := equity_curve n1b
  let ratios := List.zipWith (fun m c => (m - c) / m) (runningMax curve) curve
  match np_argmax ratios with
  | none => none
  | some i =>
    if i = 0 then some (0, 0, 0)
    else
      match np_argmax (curve.take i) with
      | none => none
      | some j =>
        some (j, i,
          (pytrunc ((curve.getD j 0 - curve.getD i 0) / curve.getD j 0 * 10000) : ℚ) / 10000)

/-- Concrete bar sequences used by witnesses: `n` bars one minute apart,
with strictly increasing ids. -/
def mkBarsMin (n : Nat) : List RawBar :=
  (List.range n).map fun (k : Nat) => { symbol := "s", freq := "f", dt := (k : Int), id := k }

/-- Concrete bar sequences used by witnesses: `n` bars six days apart
(so every evaluation bar clears the five-day debounce gap). -/
def mkBars6d (n : Nat) : List RawBar :=
  (List.range n).map fun (k : Nat) => { symbol := "s", freq := "f", dt := 8640 * (k : Int), id := k }

/-- Concrete input refuting the spec's reading of the precondition: the
first three bars are strictly ordered, the LAST three are not. -/
def cbars4 : List RawBar :=
  [{ symbol := "s", freq := "f", dt := 0, id := 0 },
   { symbol := "s", freq := "f", dt := 1, id := 1 },
   { symbol := "s", freq := "f", dt := 2, id := 2 },
   { symbol := "s", freq := "f", dt := 1, id := 1 }]

/-- Two exports are debounce-compatible when the second is more than five
days after the first. -/
def gapOK (a b : SnapExport) : Prop := a.dt + fiveDays < b.dt

instance : DecidableRel gapOK := fun a b => by
  unfold gapOK; infer_instance

/-- The exports recorded for one signal key, in trace order. -/
def keyExports (l : List SnapExport) (k : String) : List SnapExport :=
  l.filter fun e => decide (e.key = k)

/-- Loop invariant of `check_signals_acc`: per key, the export trace is a
chain of five-day gaps, and `last_dt` holds the timestamp of the last
export for that key (if any). -/
def DebInv (lastDt : String → Int) (l : List SnapExport) : Prop :=
  ∀ k : String, List.Chain' gapOK (keyExports l k) ∧
    ∀ e : SnapExport, (keyExports l k).getLast? = some e → e.dt = lastDt k

/- ## Generation-mode lemmas -/

theorem genStep_fold_length {σ S : Type} (ctUpdate : σ → RawBar → σ) (ctS : σ → S)
    (l : List RawBar) (st : σ × List S) :
    ((l.foldl (genStep ctUpdate ctS) st).2).length = st.2.length + l.length := by
  induction l generalizing st with
  | nil => simp
  | cons b t ih =>
    rw [List.foldl_cons, ih]
    simp [genStep]
    omega

theorem generate_signals_snd_length {β σ S : Type} (bg0 : β) (bgUpdate : β → RawBar → β)
    (mkCT : β → σ) (ctUpdate : σ → RawBar → σ) (ctS : σ → S)
    (bars : List RawBar) (sdt : Int) :
    ((generate_signals bg0 bgUpdate mkCT ctUpdate ctS bars sdt).2).length
      = (generate_split bars sdt).2.length := by
  unfold generate_signals
  by_cases h : (generate_split bars sdt).2.length = 0
  · simp [h]
  · simp [h, genStep_fold_length]

theorem filter_lt_add_filter_ge_length (bars : List RawBar) (sdt : Int) :
    (bars.filter fun x => decide (x.dt < sdt)).length
      + (bars.filter fun x => decide (sdt ≤ x.dt)).length = bars.length := by
  induction bars with
  | nil => simp
  | cons b t ih =>
    by_cases h : b.dt < sdt
    · have h' : ¬ sdt ≤ b.dt := not_le.mpr h
      simp [List.filter_cons, h, h']
      omega
    · have h' : sdt ≤ b.dt := not_lt.mp h
      simp [List.filter_cons, h, h']
      omega

/-- C1: with at least 500 bars strictly before the cutoff, `generate_signals`
returns one snapshot per evaluation bar: the output length equals the number
of bars with timestamp at or after `sdt`. -/
theorem generate_signals_eval_length {β σ S : Type} (bg0 : β) (bgUpdate : β → RawBar → β)
    (mkCT : β → σ) (ctUpdate : σ → RawBar → σ) (ctS : σ → S)
    (bars : List RawBar) (sdt : Int)
    (h : 500 ≤ (bars.filter fun x => decide (x.dt < sdt)).length) :
    ((generate_signals bg0 bgUpdate mkCT ctUpdate ctS bars sdt).2).length
      = (bars.filter fun x => decide (sdt ≤ x.dt)).length := by
  rw [generate_signals_snd_length]
  have hsum := filter_lt_add_filter_ge_length bars sdt
  unfold generate_split
  by_cases hle : (bars.filter fun x => decide (x.dt < sdt)).length ≤ 500
  · have h500 : (bars.filter fun x => decide (x.dt < sdt)).length = 500 := le_antisymm hle h
    simp only [hle, if_true]
    have hlen : bars.length = 500 + (bars.filter fun x => decide (sdt ≤ x.dt)).length := by
      omega
    simp [List.length_drop]
    omega
  · simp [hle]

/-- C1 witness: 501 one-minute bars with cutoff 500 — exactly 500 bars lie
before the cutoff and the output has length 1, the number of bars at or
after it. -/
theorem generate_signals_eval_length_witness :
    500 ≤ ((mkBarsMin 501).filter fun x => decide (x.dt < 500)).length ∧
    ((generate_signals () (fun _ _ => ()) (fun _ => ()) (fun _ _ => ()) (fun _ => ())
        (mkBarsMin 501) 500).2).length
      = ((mkBarsMin 501).filter fun x => decide (500 ≤ x.dt)).length :=
  ⟨by decide,
   generate_signals_eval_length () (fun _ _ => ()) (fun _ => ()) (fun _ _ => ()) (fun _ => ())
     (mkBarsMin 501) 500 (by decide)⟩

/-- C2: when 500 or fewer bars fall strictly before the cutoff, the split is
positional: the first 500 bars are the warm-up window and the rest the
evaluation window, whatever `sdt` is. -/
theorem generate_split_positional (bars : List RawBar) (sdt : Int)
    (h : (bars.filter fun x => decide (x.dt < sdt)).length ≤ 500) :
    generate_split bars sdt = (bars.take 500, bars.drop 500) := by
  simp [generate_split, h]

/-- C2 witness: three bars, all at or after the cutoff 0, still split as
`take 500` / `drop 500`. -/
theorem generate_split_positional_witness :
    ((mkBarsMin 3).filter fun x => decide (x.dt < 0)).length ≤ 500 ∧
    generate_split (mkBarsMin 3) 0 = ((mkBarsMin 3).take 500, (mkBarsMin 3).drop 500) :=
  ⟨by decide, generate_split_positional (mkBarsMin 3) 0 (by decide)⟩

/-- C9: when the evaluation window of the split is empty, `generate_signals`
warns (the boolean flag) and returns the empty list instead of raising. -/
theorem generate_signals_empty_eval_warns {β σ S : Type} (bg0 : β) (bgUpdate : β → RawBar → β)
    (mkCT : β → σ) (ctUpdate : σ → RawBar → σ) (ctS : σ → S)
    (bars : List RawBar) (sdt : Int)
    (h : (generate_split bars sdt).2 = []) :
    generate_signals bg0 bgUpdate mkCT ctUpdate ctS bars sdt = (true, []) := by
  unfold generate_signals
  simp [h]

/-- C9 witness: three bars all before the cutoff 100 leave an empty
evaluation window; the run warns and yields no snapshots. -/
theorem generate_signals_empty_eval_warns_witness :
    (generate_split (mkBarsMin 3) 100).2 = [] ∧
    generate_signals () (fun _ _ => ()) (fun _ => ()) (fun _ _ => ()) (fun _ => ())
      (mkBarsMin 3) 100 = (true, []) :=
  ⟨by decide,
   generate_signals_empty_eval_warns () (fun _ _ => ()) (fun _ => ()) (fun _ _ => ())
     (fun _ => ()) (mkBarsMin 3) 100 (by decide)⟩

/- ## Validation-mode precondition and length gate -/

/-- C5 counterexample: `cbars4`'s three most-recent bars are not ascending
(the last bar's timestamp and id both step backwards), yet
`check_signals_acc` raises nothing — it checks only `bars[0..2]` — and
returns normally with no exports. -/
theorem check_signals_acc_last_three_unchecked :
    (cbars4.getD 3 default).dt < (cbars4.getD 2 default).dt ∧
    (cbars4.getD 3 default).id < (cbars4.getD 2 default).id ∧
    check_signals_acc () (fun _ _ => ()) (fun _ => ()) (fun _ _ => ()) (fun _ => ())
      (fun _ => 0) (fun _ _ => true) (fun _ _ => "") cbars4 [⟨"k"⟩] = .ok [] :=
  ⟨by decide, by decide, by rfl⟩

/-- C5 (amended): the checked precondition applies to the three OLDEST bars
`bars[0..2]`: their timestamps must be strictly ascending and `bars[2].id >
bars[1].id` (the id of `bars[0]` is not compared); violating that check
raises `AssertionError`, while a sequence shorter than 3 raises
`IndexError` from the subscripts, not an assertion failure. -/
theorem check_signals_acc_precondition {β σ τ : Type} (bg0 : β) (bgUpdate : β → RawBar → β)
    (mkCT : β → σ) (ctUpdate : σ → RawBar → σ) (ctS : σ → τ) (ctEndDt : σ → Int)
    (isMatch : Signal → τ → Bool) (sVal : τ → String → String)
    (bars : List RawBar) (signals : List Signal) :
    (bars.length < 3 →
      check_signals_acc bg0 bgUpdate mkCT ctUpdate ctS ctEndDt isMatch sVal bars signals
        = .error .indexError) ∧
    (¬ pre3 bars → 3 ≤ bars.length →
      check_signals_acc bg0 bgUpdate mkCT ctUpdate ctS ctEndDt isMatch sVal bars signals
        = .error .assertionError) := by
  match bars with
  | [] => exact ⟨fun _ => rfl, fun _ h => by simp at h⟩
  | [_] => exact ⟨fun _ => rfl, fun _ h => by simp at h⟩
  | [_, _] => exact ⟨fun _ => rfl, fun _ h => by simp at h⟩
  | b0 :: b1 :: b2 :: rest =>
    refine ⟨fun h => by simp at h; omega, fun hpre _ => ?_⟩
    have hc : ¬ (b2.dt > b1.dt ∧ b1.dt > b0.dt ∧ b2.id > b1.id) := by
      simpa [pre3] using hpre
    simp [check_signals_acc, hc]

/-- C5 witness: a 2-bar input yields `IndexError`; a 3-bar input whose first
two bars share a timestamp yields `AssertionError`. -/
theorem check_signals_acc_precondition_witness :
    check_signals_acc () (fun _ _ => ()) (fun _ => ()) (fun _ _ => ()) (fun _ => ())
      (fun _ => 0) (fun _ _ => true) (fun _ _ => "") (mkBarsMin 2) []
      = .error .indexError ∧
    check_signals_acc () (fun _ _ => ()) (fun _ => ()) (fun _ _ => ()) (fun _ => ())
      (fun _ => 0) (fun _ _ => true) (fun _ _ => "")
      [{ symbol := "s", freq := "f", dt := 0, id := 0 },
       { symbol := "s", freq := "f", dt := 0, id := 1 },
       { symbol := "s", freq := "f", dt := 1, id := 2 }] []
      = .error .assertionError :=
  ⟨(check_signals_acc_precondition () (fun _ _ => ()) (fun _ => ()) (fun _ _ => ())
      (fun _ => ()) (fun _ => 0) (fun _ _ => true) (fun _ _ => "") (mkBarsMin 2) []).1
      (by decide),
   (check_signals_acc_precondition () (fun _ _ => ()) (fun _ => ()) (fun _ _ => ())
      (fun _ => ()) (fun _ => 0) (fun _ _ => true) (fun _ _ => "") _ []).2
      (by decide) (by decide)⟩

/-- C4 counterexample: a 600-bar run is NOT "exactly one evaluation bar".
With an always-matching signal and bars six days apart (so the debounce gap
never blocks), every evaluation bar exports once — and the run produces 100
exports, one per bar of `bars[500:]`, not 1. -/
theorem check_signals_acc_600_not_one_eval :
    (mkBars6d 600).length = 600 ∧
    (check_signals_acc () (fun _ _ => ()) (fun _ => ()) (fun _ _ => ()) (fun _ => ())
        (fun _ => -1000000) (fun _ _ => true) (fun _ _ => "")
        (mkBars6d 600) [⟨"k"⟩]).map List.length = .ok 100 ∧
    (100 : Nat) ≠ 1 :=
  ⟨by decide, by rfl, by decide⟩

/-- C4 (amended): a 599-bar sequence satisfying the ordering precondition is
a strict no-op — `check_signals_acc` returns immediately with no exports —
while a 600-bar sequence triggers an evaluation window of exactly 100 bars
(`bars[500:]`), witnessed by the always-matching run above producing one
export for each of its 100 evaluation bars. -/
theorem check_signals_acc_length_gate :
    (∀ (β σ τ : Type) (bg0 : β) (bgUpdate : β → RawBar → β)
       (mkCT : β → σ) (ctUpdate : σ → RawBar → σ) (ctS : σ → τ) (ctEndDt : σ → Int)
       (isMatch : Signal → τ → Bool) (sVal : τ → String → String)
       (bars : List RawBar) (signals : List Signal),
       bars.length = 599 → pre3 bars →
       check_signals_acc bg0 bgUpdate mkCT ctUpdate ctS ctEndDt isMatch sVal bars signals
         = .ok []) ∧
    (∀ (bars : List RawBar), bars.length = 600 → (bars.drop 500).length = 100) := by
  constructor
  · intro β σ τ bg0 bgUpdate mkCT ctUpdate ctS ctEndDt isMatch sVal bars signals hlen hpre
    match bars, hlen with
    | b0 :: b1 :: b2 :: rest, hlen =>
      have hc : b2.dt > b1.dt ∧ b1.dt > b0.dt ∧ b2.id > b1.id := by
        simpa [pre3] using hpre
      have hlt : (b0 :: b1 :: b2 :: rest).length < 600 := by
        simp at hlen ⊢
        omega
      have hc' : ¬ ¬ (b2.dt > b1.dt ∧ b1.dt > b0.dt ∧ b2.id > b1.id) := not_not_intro hc
      simp only [check_signals_acc]
      rw [if_neg hc', if_pos hlt]
  · intro bars hlen
    simp [List.length_drop, hlen]

/-- C4 witness: a concrete 599-bar strictly ascending sequence returns
normally with no exports, and a concrete 600-bar sequence has a 100-bar
evaluation window. -/
theorem check_signals_acc_length_gate_witness :
    check_signals_acc () (fun _ _ => ()) (fun _ => ()) (fun _ _ => ()) (fun _ => ())
      (fun _ => -1000000) (fun _ _ => true) (fun _ _ => "") (mkBarsMin 599) [⟨"k"⟩]
      = .ok [] ∧
    ((mkBars6d 600).drop 500).length = 100 :=
  ⟨check_signals_acc_length_gate.1 Unit Unit Unit () (fun _ _ => ()) (fun _ => ())
     (fun _ _ => ()) (fun _ => ()) (fun _ => -1000000) (fun _ _ => true) (fun _ _ => "")
     (mkBarsMin 599) [⟨"k"⟩] (by decide) (by decide),
   check_signals_acc_length_gate.2 (mkBars6d 600) (by decide)⟩

/- ## Debounce invariant -/

theorem debInv_nil (lastDt : String → Int) : DebInv lastDt [] := by
  intro k
  constructor
  · simp [keyExports]
  · intro e he
    simp [keyExports] at he

theorem procSignal_inv {τ : Type} (isMatch : Signal → τ → Bool)
    (sVal : τ → String → String) (s : τ) (sym : String) (bdt : Int)
    (st : (String → Int) × List SnapExport) (sig : Signal)
    (h : DebInv st.1 st.2) :
    DebInv (procSignal isMatch sVal s sym bdt st sig).1
      (procSignal isMatch sVal s sym bdt st sig).2 := by
  unfold procSignal
  by_cases hc : fiveDays < bdt - st.1 sig.key ∧ isMatch sig s = true
  · rw [if_pos hc]
    show DebInv (updFn st.1 sig.key bdt) (st.2 ++ [⟨sym, sig.key, sVal s sig.key, bdt⟩])
    intro k
    by_cases hk : k = sig.key
    · subst hk
      have hfilt : keyExports (st.2 ++ [⟨sym, sig.key, sVal s sig.key, bdt⟩]) sig.key
          = keyExports st.2 sig.key ++ [⟨sym, sig.key, sVal s sig.key, bdt⟩] := by
        simp [keyExports, List.filter_append]
      rw [hfilt]
      constructor
      · refine (h sig.key).1.append (List.chain'_singleton _) ?_
        intro x hx y hy
        simp at hy
        subst hy
        have hx' : x.dt = st.1 sig.key := (h sig.key).2 x (by simpa using hx)
        show x.dt + fiveDays < bdt
        omega
      · intro e he
        rw [List.getLast?_concat] at he
        have he' : e = ⟨sym, sig.key, sVal s sig.key, bdt⟩ := by
          simpa using he.symm
        subst he'
        simp [updFn]
    · have hfilt : keyExports (st.2 ++ [⟨sym, sig.key, sVal s sig.key, bdt⟩]) k
          = keyExports st.2 k := by
        unfold keyExports
        rw [List.filter_append]
        have hone : List.filter (fun e => decide (e.key = k))
            [(⟨sym, sig.key, sVal s sig.key, bdt⟩ : SnapExport)] = [] := by
          simp
          exact fun hkk => absurd hkk.symm hk
        rw [hone, List.append_nil]
      have hupd : updFn st.1 sig.key bdt k = st.1 k := by
        simp [updFn, hk]
      rw [hfilt, hupd]
      exact h k
  · rw [if_neg hc]
    exact h

theorem foldl_procSignal_inv {τ : Type} (isMatch : Signal → τ → Bool)
    (sVal : τ → String → String) (s : τ) (sym : String) (bdt : Int)
    (sigs : List Signal) (st : (String → Int) × List SnapExport)
    (h : DebInv st.1 st.2) :
    DebInv ((sigs.foldl (procSignal isMatch sVal s sym bdt) st).1)
      ((sigs.foldl (procSignal isMatch sVal s sym bdt) st).2) := by
  induction sigs generalizing st with
  | nil => exact h
  | cons a t ih =>
    rw [List.foldl_cons]
    exact ih _ (procSignal_inv isMatch sVal s sym bdt st a h)

theorem foldl_procBar_inv {σ τ : Type} (ctUpdate : σ → RawBar → σ) (ctS : σ → τ)
    (isMatch : Signal → τ → Bool) (sVal : τ → String → String)
    (signals : List Signal) (brs : List RawBar)
    (st : σ × (String → Int) × List SnapExport)
    (h : DebInv st.2.1 st.2.2) :
    DebInv ((brs.foldl (procBar ctUpdate ctS isMatch sVal signals) st).2.1)
      ((brs.foldl (procBar ctUpdate ctS isMatch sVal signals) st).2.2) := by
  induction brs generalizing st with
  | nil => exact h
  | cons b t ih =>
    rw [List.foldl_cons]
    refine ih _ ?_
    unfold procBar
    exact foldl_procSignal_inv isMatch sVal _ b.symbol b.dt signals st.2 h

/-- C3: in any successful `check_signals_acc` run, the exports recorded for
one signal key are pairwise more than five days apart — at most one export
per key in any rolling five-day span. -/
theorem check_signals_acc_debounce {β σ τ : Type} (bg0 : β) (bgUpdate : β → RawBar → β)
    (mkCT : β → σ) (ctUpdate : σ → RawBar → σ) (ctS : σ → τ) (ctEndDt : σ → Int)
    (isMatch : Signal → τ → Bool) (sVal : τ → String → String)
    (bars : List RawBar) (signals : List Signal) (exps : List SnapExport)
    (h : check_signals_acc bg0 bgUpdate mkCT ctUpdate ctS ctEndDt isMatch sVal bars signals
      = .ok exps) (k : String) :
    List.Pairwise gapOK (keyExports exps k) := by
  have htrans : Transitive gapOK := by
    intro a b c hab hbc
    unfold gapOK fiveDays at *
    omega
  haveI : IsTrans SnapExport gapOK := ⟨htrans⟩
  match bars with
  | [] => simp [check_signals_acc] at h
  | [_] => simp [check_signals_acc] at h
  | [_, _] => simp [check_signals_acc] at h
  | b0 :: b1 :: b2 :: rest =>
    simp only [check_signals_acc] at h
    split at h
    · simp at h
    · split at h
      · have hexps : exps = [] := by
          simpa using h.symm
        subst hexps
        simp [keyExports]
      · have hexps : exps = (((b0 :: b1 :: b2 :: rest).drop 500).foldl
            (procBar ctUpdate ctS isMatch sVal signals)
            (mkCT (((b0 :: b1 :: b2 :: rest).take 500).foldl bgUpdate bg0),
              fun _ => ctEndDt (mkCT (((b0 :: b1 :: b2 :: rest).take 500).foldl bgUpdate bg0)),
              [])).2.2 := by
          simpa using h.symm
        subst hexps
        have hinv := foldl_procBar_inv ctUpdate ctS isMatch sVal signals
          ((b0 :: b1 :: b2 :: rest).drop 500)
          (mkCT (((b0 :: b1 :: b2 :: rest).take 500).foldl bgUpdate bg0),
            fun _ => ctEndDt (mkCT (((b0 :: b1 :: b2 :: rest).take 500).foldl bgUpdate bg0)),
            [])
          (debInv_nil _)
        exact (List.chain'_iff_pairwise).1 (hinv k).1

/-- C3 witness: a concrete 600-bar run (one-minute bars, always-matching
signal) exports exactly once for key "k" — its export trace for every key is
pairwise five-days-apart. -/
theorem check_signals_acc_debounce_witness :
    List.Pairwise gapOK (keyExports [⟨"s", "k", "", 500⟩] "k") :=
  check_signals_acc_debounce () (fun _ _ => ()) (fun _ => ()) (fun _ _ => ()) (fun _ => ())
    (fun _ => -1000000) (fun _ _ => true) (fun _ _ => "") (mkBarsMin 600) [⟨"k"⟩]
    [⟨"s", "k", "", 500⟩] (by rfl) "k"

/- ## Drawdown theorems -/

/-- C6 counterexample: on the empty list `max_draw_down` does not return the
`(0, 0, 0)` sentinel — `np.argmax` of the empty decline array raises
(modelled as `none`). -/
theorem max_draw_down_empty_raises :
    max_draw_down ([] : List ℚ) ≠ some (0, 0, 0) := by
  simp [max_draw_down, equity_curve, cumsum, cumsumFrom, runningMax, np_argmax]

/-- C6 (amended): `max_draw_down` on the empty list raises (argmax of an
empty sequence) instead of returning; on any single-element list it returns
the `(0, 0, 0)` sentinel. -/
theorem max_draw_down_empty_and_single :
    max_draw_down ([] : List ℚ) = none ∧
    ∀ x : ℚ, max_draw_down [x] = some (0, 0, 0) := by
  constructor
  · norm_num [max_draw_down, equity_curve, cumsum, cumsumFrom, runningMax, np_argmax]
  · intro x
    simp [max_draw_down, equity_curve, cumsum, cumsumFrom, runningMax, runMaxAux,
      np_argmax, argmaxAux]

/-- C7: `max_draw_down([100, -300, 50])` — offset curve `[10100, 9800,
9850]`, worst decline from the peak at index 0 to index 1, drawdown
`(10100-9800)/10100*10000` truncated to `297`, reported as `0.0297`. -/
theorem max_draw_down_example :
    max_draw_down [100, -300, 50] = some (0, 1, 297 / 10000) := by
  norm_num [max_draw_down, equity_curve, cumsum, cumsumFrom, runningMax, runMaxAux,
    np_argmax, argmaxAux, pytrunc]

theorem runMaxAux_of_chain (xs : List ℚ) : ∀ m : ℚ,
    List.Chain' (fun a b => a ≤ b) (m :: xs) → runMaxAux m xs = xs := by
  induction xs with
  | nil => intro m _; rfl
  | cons x t ih =>
    intro m hch
    rw [List.chain'_cons] at hch
    obtain ⟨hmx, hch'⟩ := hch
    unfold runMaxAux
    rw [max_eq_right hmx, ih x hch']

theorem runningMax_of_chain (l : List ℚ) (h : List.Chain' (fun a b => a ≤ b) l) :
    runningMax l = l := by
  cases l with
  | nil => rfl
  | cons x t =>
    show x :: runMaxAux x t = x :: t
    rw [runMaxAux_of_chain t x h]

theorem ratio_zipWith_self (l : List ℚ) :
    List.zipWith (fun m c => (m - c) / m) l l = l.map (fun _ => (0 : ℚ)) := by
  induction l with
  | nil => rfl
  | cons x t ih => simp [ih]

theorem argmaxAux_no_improve (xs : List ℚ) : ∀ (i bi : Nat) (bv : ℚ),
    (∀ x ∈ xs, ¬ bv < x) → argmaxAux xs i bi bv = (bi, bv) := by
  induction xs with
  | nil => intro i bi bv _; rfl
  | cons x t ih =>
    intro i bi bv hno
    unfold argmaxAux
    rw [if_neg (hno x (List.mem_cons_self x t))]
    exact ih (i + 1) bi bv fun y hy => hno y (List.mem_cons_of_mem x hy)

theorem np_argmax_of_zeros (l : List ℚ) (hl : l ≠ []) :
    np_argmax (l.map (fun _ => (0 : ℚ))) = some 0 := by
  cases l with
  | nil => exact absurd rfl hl
  | cons x t =>
    show some (argmaxAux (t.map fun _ => (0 : ℚ)) 1 0 0).1 = some 0
    rw [argmaxAux_no_improve (t.map fun _ => (0 : ℚ)) 1 0 0 ?_]
    intro y hy
    rw [List.mem_map] at hy
    obtain ⟨_, _, hy'⟩ := hy
    rw [← hy']
    exact lt_irrefl 0

/-- C8 counterexample: the empty return sequence has a (vacuously)
non-decreasing offset cumulative curve, yet `max_draw_down` does not return
`(0, 0, 0)` on it — numpy's argmax raises. -/
theorem max_draw_down_nondecreasing_empty_cex :
    List.Chain' (fun a b => a ≤ b) (equity_curve ([] : List ℚ)) ∧
    max_draw_down ([] : List ℚ) ≠ some (0, 0, 0) := by
  constructor
  · simp [equity_curve, cumsum, cumsumFrom]
  · simp [max_draw_down, equity_curve, cumsum, cumsumFrom, runningMax, np_argmax]

/-- C8 (amended): for every NONEMPTY return sequence whose offset cumulative
curve is non-decreasing, `max_draw_down` returns the `(0, 0, 0)` sentinel
(on the empty sequence it raises instead). -/
theorem max_draw_down_nondecreasing (n1b : List ℚ) (hne : n1b ≠ [])
    (h : List.Chain' (fun a b => a ≤ b) (equity_curve n1b)) :
    max_draw_down n1b = some (0, 0, 0) := by
  have hcne : equity_curve n1b ≠ [] := by
    cases n1b with
    | nil => exact absurd rfl hne
    | cons a t => simp [equity_curve, cumsum, cumsumFrom]
  simp only [max_draw_down]
  rw [runningMax_of_chain _ h, ratio_zipWith_self, np_argmax_of_zeros _ hcne]
  simp

/-- C8 witness: `[100, 100, 100]` has the non-decreasing curve
`[10100, 10200, 10300]` and yields the sentinel. -/
theorem max_draw_down_nondecreasing_witness :
    max_draw_down [100, 100, 100] = some (0, 0, 0) :=
  max_draw_down_nondecreasing [100, 100, 100] (by simp)
    (by norm_num [equity_curve, cumsum, cumsumFrom, List.chain'_cons])

/- ## Argmax and running-max specifications -/

theorem cumsumFrom_length (l : List ℚ) : ∀ a : ℚ, (cumsumFrom a l).length = l.length := by
  induction l with
  | nil => intro a; rfl
  | cons x t ih => intro a; simp [cumsumFrom, ih]

theorem equity_curve_length (n1b : List ℚ) : (equity_curve n1b).length = n1b.length := by
  simp [equity_curve, cumsum, cumsumFrom_length]

theorem runMaxAux_length (xs : List ℚ) : ∀ m : ℚ, (runMaxAux m xs).length = xs.length := by
  induction xs with
  | nil => intro m; rfl
  | cons x t ih => intro m; simp [runMaxAux, ih]

theorem runningMax_length (l : List ℚ) : (runningMax l).length = l.length := by
  cases l with
  | nil => rfl
  | cons x t => simp [runningMax, runMaxAux_length]

theorem getD_zipWith (f : ℚ → ℚ → ℚ) : ∀ (as bs : List ℚ) (m : Nat),
    m < as.length → m < bs.length →
    (List.zipWith f as bs).getD m 0 = f (as.getD m 0) (bs.getD m 0) := by
  intro as
  induction as with
  | nil => intro bs m hm _; simp at hm
  | cons a as' ih =>
    intro bs m hma hmb
    cases bs with
    | nil => simp at hmb
    | cons b bt =>
      cases m with
      | zero => simp
      | succ m' =>
        simp only [List.zipWith_cons_cons, List.getD_cons_succ]
        exact ih bt m' (by simpa using hma) (by simpa using hmb)

theorem getD_take (l : List ℚ) : ∀ (i m : Nat), m < i → m < l.length →
    (l.take i).getD m 0 = l.getD m 0 := by
  induction l with
  | nil => intro i m _ hm; simp at hm
  | cons x t ih =>
    intro i m him hm
    cases i with
    | zero => omega
    | succ i' =>
      cases m with
      | zero => simp
      | succ m' =>
        simp only [List.take_succ_cons, List.getD_cons_succ]
        exact ih i' m' (by omega) (by simpa using hm)

theorem runningMax_getD_zero (l : List ℚ) : (runningMax l).getD 0 0 = l.getD 0 0 := by
  cases l <;> simp [runningMax]

/-- Joint specification of `runMaxAux`: at index `i` the running maximum
bounds the seed and every element up to `i`, and it is the seed or one of
those elements. -/
theorem runMaxAux_spec (xs : List ℚ) : ∀ (m : ℚ) (i : Nat), i < xs.length →
    (m ≤ (runMaxAux m xs).getD i 0) ∧
    (∀ k, k ≤ i → xs.getD k 0 ≤ (runMaxAux m xs).getD i 0) ∧
    ((runMaxAux m xs).getD i 0 = m ∨
      ∃ k, k ≤ i ∧ (runMaxAux m xs).getD i 0 = xs.getD k 0) := by
  induction xs with
  | nil => intro m i hi; simp at hi
  | cons x t ih =>
    intro m i hi
    cases i with
    | zero =>
      simp only [runMaxAux, List.getD_cons_zero]
      refine ⟨le_max_left m x, ?_, ?_⟩
      · intro k hk
        have hk0 : k = 0 := Nat.le_zero.mp hk
        subst hk0
        simp only [List.getD_cons_zero]
        exact le_max_right m x
      · rcases max_choice m x with hmx | hmx
        · exact Or.inl hmx
        · exact Or.inr ⟨0, le_refl 0, by simpa using hmx⟩
    | succ i' =>
      have hi' : i' < t.length := by simpa using hi
      obtain ⟨ha, hb, hc⟩ := ih (max m x) i' hi'
      simp only [runMaxAux, List.getD_cons_succ]
      refine ⟨le_trans (le_max_left m x) ha, ?_, ?_⟩
      · intro k hk
        cases k with
        | zero =>
          simpa using le_trans (le_max_right m x) ha
        | succ k' =>
          have hk' : k' ≤ i' := Nat.succ_le_succ_iff.mp hk
          simpa using hb k' hk'
      · rcases hc with hc | ⟨k, hk, hkeq⟩
        · rcases max_choice m x with hmx | hmx
          · exact Or.inl (by rw [hc, hmx])
          · exact Or.inr ⟨0, Nat.zero_le _, by rw [hc, hmx]; simp⟩
        · exact Or.inr ⟨k + 1, Nat.succ_le_succ hk, by simpa using hkeq⟩

theorem runningMax_dominates (l : List ℚ) (i : Nat) (hi : i < l.length) :
    ∀ k, k ≤ i → l.getD k 0 ≤ (runningMax l).getD i 0 := by
  cases l with
  | nil => simp at hi
  | cons x t =>
    cases i with
    | zero =>
      intro k hk
      have hk0 : k = 0 := Nat.le_zero.mp hk
      subst hk0
      simp [runningMax]
    | succ i' =>
      have hi' : i' < t.length := by simpa using hi
      obtain ⟨ha, hb, _⟩ := runMaxAux_spec t x i' hi'
      intro k hk
      cases k with
      | zero => simpa [runningMax] using ha
      | succ k' =>
        have hk' : k' ≤ i' := Nat.succ_le_succ_iff.mp hk
        simpa [runningMax] using hb k' hk'

theorem runningMax_attained (l : List ℚ) (i : Nat) (hi : i < l.length) :
    ∃ k, k ≤ i ∧ l.getD k 0 = (runningMax l).getD i 0 := by
  cases l with
  | nil => simp at hi
  | cons x t =>
    cases i with
    | zero => exact ⟨0, le_refl 0, by simp [runningMax]⟩
    | succ i' =>
      have hi' : i' < t.length := by simpa using hi
      obtain ⟨_, _, hc⟩ := runMaxAux_spec t x i' hi'
      rcases hc with hc | ⟨k, hk, hkeq⟩
      · refine ⟨0, Nat.zero_le _, ?_⟩
        simp only [runningMax, List.getD_cons_zero, List.getD_cons_succ]
        exact hc.symm
      · refine ⟨k + 1, Nat.succ_le_succ hk, ?_⟩
        simp only [runningMax, List.getD_cons_succ]
        exact hkeq.symm

/-- Joint specification of `argmaxAux`, phrased over a processed prefix
`pre`: the running best index/value stay a first-occurrence maximum of the
whole scanned list. -/
theorem argmaxAux_spec (xs : List ℚ) : ∀ (pre : List ℚ) (bi : Nat) (bv : ℚ),
    bi < pre.length → pre.getD bi 0 = bv →
    (∀ m, m < pre.length → pre.getD m 0 ≤ bv) →
    (∀ m, m < bi → pre.getD m 0 < bv) →
    (argmaxAux xs pre.length bi bv).1 < (pre ++ xs).length ∧
    (pre ++ xs).getD (argmaxAux xs pre.length bi bv).1 0 = (argmaxAux xs pre.length bi bv).2 ∧
    (∀ m, m < (pre ++ xs).length →
      (pre ++ xs).getD m 0 ≤ (argmaxAux xs pre.length bi bv).2) ∧
    (∀ m, m < (argmaxAux xs pre.length bi bv).1 →
      (pre ++ xs).getD m 0 < (argmaxAux xs pre.length bi bv).2) := by
  induction xs with
  | nil =>
    intro pre bi bv hbi hval hub hstr
    simp only [argmaxAux, List.append_nil]
    exact ⟨hbi, hval, hub, hstr⟩
  | cons x t ih =>
    intro pre bi bv hbi hval hub hstr
    have hlen : (pre ++ [x]).length = pre.length + 1 := by simp
    by_cases hlt : bv < x
    · have harg : argmaxAux (x :: t) pre.length bi bv
          = argmaxAux t (pre.length + 1) pre.length x := by
        simp [argmaxAux, hlt]
      have h1 : pre.length < (pre ++ [x]).length := by simp
      have h2 : (pre ++ [x]).getD pre.length 0 = x := by
        rw [List.getD_append_right pre [x] 0 pre.length (le_refl _)]
        simp
      have h3 : ∀ m, m < (pre ++ [x]).length → (pre ++ [x]).getD m 0 ≤ x := by
        intro m hm
        rcases Nat.lt_or_ge m pre.length with hmp | hmp
        · rw [List.getD_append pre [x] 0 m hmp]
          exact le_of_lt (lt_of_le_of_lt (hub m hmp) hlt)
        · have hmeq : m = pre.length := by
            rw [hlen] at hm
            omega
          rw [hmeq, h2]
      have h4 : ∀ m, m < pre.length → (pre ++ [x]).getD m 0 < x := by
        intro m hm
        rw [List.getD_append pre [x] 0 m hm]
        exact lt_of_le_of_lt (hub m hm) hlt
      have hres := ih (pre ++ [x]) pre.length x h1 h2 h3 h4
      rw [hlen] at hres
      rw [harg]
      simpa only [List.append_assoc, List.singleton_append] using hres
    · have harg : argmaxAux (x :: t) pre.length bi bv
          = argmaxAux t (pre.length + 1) bi bv := by
        simp [argmaxAux, hlt]
      have h1 : bi < (pre ++ [x]).length := by
        rw [hlen]
        omega
      have h2 : (pre ++ [x]).getD bi 0 = bv := by
        rw [List.getD_append pre [x] 0 bi hbi]
        exact hval
      have h3 : ∀ m, m < (pre ++ [x]).length → (pre ++ [x]).getD m 0 ≤ bv := by
        intro m hm
        rcases Nat.lt_or_ge m pre.length with hmp | hmp
        · rw [List.getD_append pre [x] 0 m hmp]
          exact hub m hmp
        · have hmeq : m = pre.length := by
            rw [hlen] at hm
            omega
          rw [hmeq, List.getD_append_right pre [x] 0 pre.length (le_refl _)]
          simpa using not_lt.mp hlt
      have h4 : ∀ m, m < bi → (pre ++ [x]).getD m 0 < bv := by
        intro m hm
        rw [List.getD_append pre [x] 0 m (lt_trans hm hbi)]
        exact hstr m hm
      have hres := ih (pre ++ [x]) bi bv h1 h2 h3 h4
      rw [hlen] at hres
      rw [harg]
      simpa only [List.append_assoc, List.singleton_append] using hres

/-- `np.argmax` returns an in-range index of the maximum, and every earlier
index holds a strictly smaller value (first-occurrence semantics). -/
theorem np_argmax_spec (l : List ℚ) (i : Nat) (h : np_argmax l = some i) :
    i < l.length ∧ (∀ m, m < l.length → l.getD m 0 ≤ l.getD i 0) ∧
    (∀ m, m < i → l.getD m 0 < l.getD i 0) := by
  cases l with
  | nil => simp [np_argmax] at h
  | cons x t =>
    have hi : i = (argmaxAux t 1 0 x).1 := by
      simpa [np_argmax] using h.symm
    have hpre1 : ([x] : List ℚ).length = 1 := rfl
    have hspec := argmaxAux_spec t [x] 0 x (by simp) (by simp)
      (by
        intro m hm
        have hm0 : m = 0 := by simpa using Nat.lt_one_iff.mp (by simpa using hm)
        subst hm0
        simp)
      (by intro m hm; omega)
    rw [hpre1] at hspec
    simp only [List.singleton_append] at hspec
    obtain ⟨hA, hB, hC, hD⟩ := hspec
    subst hi
    refine ⟨hA, ?_, ?_⟩
    · intro m hm
      rw [hB]
      exact hC m hm
    · intro m hm
      rw [hB]
      exact hD m hm

/-- C10: every non-sentinel result `(j, i, mdd)` of `max_draw_down` with
`i ≠ 0` on input of length `n` satisfies `0 ≤ j < i < n`, a non-negative
drawdown, and a drawdown that is an integer multiple of `1/10000`. -/
theorem max_draw_down_result_invariants (n1b : List ℚ) (j i : Nat) (mdd : ℚ)
    (h : max_draw_down n1b = some (j, i, mdd)) (hi0 : i ≠ 0) :
    j < i ∧ i < n1b.length ∧ 0 ≤ mdd ∧ ∃ z : ℤ, mdd = (z : ℚ) / 10000 := by
  simp only [max_draw_down] at h
  have hclen : (equity_curve n1b).length = n1b.length := equity_curve_length n1b
  have hrlen : (List.zipWith (fun m c => (m - c) / m)
      (runningMax (equity_curve n1b)) (equity_curve n1b)).length = n1b.length := by
    rw [List.length_zipWith, runningMax_length, hclen, min_self]
  cases hr : np_argmax (List.zipWith (fun m c => (m - c) / m)
      (runningMax (equity_curve n1b)) (equity_curve n1b)) with
  | none =>
    rw [hr] at h
    simp at h
  | some i0 =>
    rw [hr] at h
    simp only at h
    by_cases hz : i0 = 0
    · subst hz
      rw [if_pos rfl] at h
      injection h with h'
      rw [Prod.mk.injEq, Prod.mk.injEq] at h'
      exact absurd h'.2.1.symm hi0
    · rw [if_neg hz] at h
      cases hj : np_argmax ((equity_curve n1b).take i0) with
      | none =>
        rw [hj] at h
        simp at h
      | some j0 =>
        rw [hj] at h
        simp only [Option.some.injEq, Prod.mk.injEq] at h
        obtain ⟨hjeq, hieq, hmddeq⟩ := h
        obtain ⟨hiL, hub, hstr⟩ := np_argmax_spec _ i0 hr
        rw [hrlen] at hiL
        have hi0lt : i0 < (equity_curve n1b).length := by omega
        have htlen : ((equity_curve n1b).take i0).length = i0 := by
          rw [List.length_take]
          omega
        obtain ⟨hjL, hubT, _⟩ := np_argmax_spec _ j0 hj
        rw [htlen] at hjL
        have hr0 : (List.zipWith (fun m c => (m - c) / m)
            (runningMax (equity_curve n1b)) (equity_curve n1b)).getD 0 0 = 0 := by
          rw [getD_zipWith _ _ _ 0 (by rw [runningMax_length]; omega) (by omega),
            runningMax_getD_zero]
          simp
        have hri : (List.zipWith (fun m c => (m - c) / m)
            (runningMax (equity_curve n1b)) (equity_curve n1b)).getD i0 0
            = ((runningMax (equity_curve n1b)).getD i0 0 - (equity_curve n1b).getD i0 0)
              / (runningMax (equity_curve n1b)).getD i0 0 := by
          rw [getD_zipWith _ _ _ i0 (by rw [runningMax_length]; omega) (by omega)]
        have hpos : 0 < ((runningMax (equity_curve n1b)).getD i0 0
            - (equity_curve n1b).getD i0 0) / (runningMax (equity_curve n1b)).getD i0 0 := by
          have hpos' := hstr 0 (Nat.pos_of_ne_zero hz)
          rw [hr0, hri] at hpos'
          exact hpos'
        have hca : (equity_curve n1b).getD i0 0 ≤ (runningMax (equity_curve n1b)).getD i0 0 :=
          runningMax_dominates _ i0 hi0lt i0 (le_refl _)
        have hapos : 0 < (runningMax (equity_curve n1b)).getD i0 0 ∧
            (equity_curve n1b).getD i0 0 < (runningMax (equity_curve n1b)).getD i0 0 := by
          rcases div_pos_iff.mp hpos with ⟨hnum, hden⟩ | ⟨hnum, hden⟩
          · exact ⟨hden, by linarith⟩
          · linarith
        obtain ⟨k, hk, hkeq⟩ := runningMax_attained _ i0 hi0lt
        have hkne : k ≠ i0 := by
          intro hke
          rw [hke] at hkeq
          exact absurd hkeq (ne_of_lt hapos.2)
        have hklt : k < i0 := lt_of_le_of_ne hk hkne
        have hcjle : (equity_curve n1b).getD j0 0 ≤ (runningMax (equity_curve n1b)).getD i0 0 :=
          runningMax_dominates _ i0 hi0lt j0 (le_of_lt hjL)
        have hlecj : (runningMax (equity_curve n1b)).getD i0 0 ≤ (equity_curve n1b).getD j0 0 := by
          have hkub := hubT k (by rw [htlen]; exact hklt)
          rw [getD_take _ i0 k hklt (by omega), getD_take _ i0 j0 hjL (by omega)] at hkub
          calc (runningMax (equity_curve n1b)).getD i0 0
              = (equity_curve n1b).getD k 0 := hkeq.symm
            _ ≤ (equity_curve n1b).getD j0 0 := hkub
        have hcj : (equity_curve n1b).getD j0 0 = (runningMax (equity_curve n1b)).getD i0 0 :=
          le_antisymm hcjle hlecj
        have hxpos : 0 ≤ ((equity_curve n1b).getD j0 0 - (equity_curve n1b).getD i0 0)
            / (equity_curve n1b).getD j0 0 * 10000 := by
          rw [hcj]
          have h1 : (0:ℚ) ≤ ((runningMax (equity_curve n1b)).getD i0 0
              - (equity_curve n1b).getD i0 0) := by linarith [hapos.2]
          have h2 : (0:ℚ) ≤ (runningMax (equity_curve n1b)).getD i0 0 := le_of_lt hapos.1
          positivity
        have htr : pytrunc (((equity_curve n1b).getD j0 0 - (equity_curve n1b).getD i0 0)
            / (equity_curve n1b).getD j0 0 * 10000)
            = ⌊((equity_curve n1b).getD j0 0 - (equity_curve n1b).getD i0 0)
              / (equity_curve n1b).getD j0 0 * 10000⌋ := by
          unfold pytrunc
          rw [if_pos hxpos]
        refine ⟨by omega, by omega, ?_, ?_⟩
        · rw [← hmddeq]
          apply div_nonneg _ (by norm_num)
          rw [htr]
          exact_mod_cast Int.floor_nonneg.mpr hxpos
        · exact ⟨pytrunc (((equity_curve n1b).getD j0 0 - (equity_curve n1b).getD i0 0)
            / (equity_curve n1b).getD j0 0 * 10000), hmddeq.symm⟩

/-- C10 witness: the result `(0, 1, 0.0297)` on `[100, -300, 50]` satisfies
the invariants. -/
theorem max_draw_down_result_invariants_witness :
    0 < 1 ∧ 1 < ([100, -300, 50] : List ℚ).length ∧ 0 ≤ (297 : ℚ) / 10000 ∧
    ∃ z : ℤ, (297 : ℚ) / 10000 = (z : ℚ) / 10000 :=
  max_draw_down_result_invariants [100, -300, 50] 0 1 (297 / 10000)
    (by norm_num [max_draw_down, equity_curve, cumsum, cumsumFrom, runningMax, runMaxAux,
      np_argmax, argmaxAux, pytrunc]) (by norm_num)
